import Mathlib

/-
Verification of the sequential-playlist progress and test-scoring core of the
course platform. The definitions below are shallow embeddings of the TypeScript
source:

* TestTake.tsx       : test session (loadTest, handleFinish, timer tick,
                       handleAnswerChange) and its scoring loop.
* PlaylistView.tsx   : per-item availability and completion computation in
                       loadPlaylist (test branch and course branch), and the
                       markTestCompleted read-modify-write.
* LessonView.tsx     : handleCompleteLesson, which iterates over every playlist
                       containing the course.

JavaScript numbers are modelled as Int where subtraction matters and as Nat
for counts and array indexes. A missing entry of a JS object or a null column
is modelled as Option. Only the fields that the core logic reads are carried.
-/

/-- One candidate answer of a question (table test_question_variants),
with its correctness flag. Variants arrive ordered by order_index. -/
structure Variant where
  id : String
  variant_text : String
  is_correct : Bool
deriving DecidableEq

/-- A question of a test (table test_questions) carrying its ordered
variant list, as assembled by loadTest in TestTake.tsx. -/
structure Question where
  id : String
  question_text : String
  variants : List Variant
deriving DecidableEq

/-- The columns of the tests row that the session logic reads.
time_minutes is nullable in the database. -/
structure TestRow where
  id : String
  time_minutes : Option Int
deriving DecidableEq

/-- The result object built by handleFinish in TestTake.tsx. -/
structure TestResults where
  total : Nat
  correct : Nat
  wrong : Nat
  timeTaken : Int
deriving DecidableEq

/-- The client-local answer map of TestTake.tsx: a JS object from question
index to chosen variant index; a missing key reads as undefined. -/
def AnswerMap : Type := Nat → Option Int

/-- JS findIndex over the variant list for the first is_correct variant:
the index of the first match, or -1 when none exists
(TestTake.tsx line 107). -/
def correctVariantIndex (q : Question) : Int :=
  match q.variants.findIdx? (fun v => v.is_correct) with
  | some i => Int.ofNat i
  | none => -1

/-- The per-question test of the scoring loop (TestTake.tsx line 109):
the user answered, and the answer index equals the first correct
variant index. An undefined answer is never correct. -/
def isAnsweredCorrectly (q : Question) (a : Option Int) : Bool :=
  match a with
  | some v => v == correctVariantIndex q
  | none => false

/-- The forEach accumulation of correctCount in handleFinish
(TestTake.tsx lines 104-112), with the running question index made
explicit. -/
def countCorrectAux : List Question → Nat → AnswerMap → Nat
  | [], _, _ => 0
  | q :: rest, i, ans =>
      (if isAnsweredCorrectly q (ans i) then 1 else 0) + countCorrectAux rest (i + 1) ans

/-- Number of correctly answered questions, starting the index at 0. -/
def countCorrect (qs : List Question) (ans : AnswerMap) : Nat :=
  countCorrectAux qs 0 ans

/-- The result computation of handleFinish (TestTake.tsx lines 104-122):
total, correct, wrong = total - correct, timeTaken = initial - remaining. -/
def computeResults (qs : List Question) (ans : AnswerMap)
    (initialTime timeRemaining : Int) : TestResults :=
  { total := qs.length
    correct := countCorrect qs ans
    wrong := qs.length - countCorrect qs ans
    timeTaken := initialTime - timeRemaining }

/-- JS logical-or with a numeric default, as in
testData.time_minutes || 60 (TestTake.tsx line 198): null and 0 are
falsy and give the default. -/
def jsOrInt (x : Option Int) (d : Int) : Int :=
  match x with
  | none => d
  | some v => if v = 0 then d else v

/-- The state of one test-taking session in TestTake.tsx: the loaded
questions, the answer map, the countdown, the finished flag, the stored
result, and the playlist write context of handleFinish.
progressWrites counts progress-record writes and finishCount counts
actual (non-guarded) finish transitions; both are ghost observers of
effects the component performs. -/
structure Session where
  testId : String
  questions : List Question
  answers : AnswerMap
  timeRemaining : Int
  initialTime : Int
  finished : Bool
  results : Option TestResults
  playlistId : Option String
  isStudent : Bool
  storedCompleted : List String
  progressWrites : Nat
  finishCount : Nat

/-- loadTest (TestTake.tsx lines 183-235): sets both timeRemaining and
initialTime to (time_minutes || 60) * 60 and installs the ordered
questions; answers start empty unless navigation state supplies them
(modelled by a later setAnswer step). playlistId, isStudent and the
stored completed list are the context handleFinish later reads. -/
def loadTest (t : TestRow) (qs : List Question) (pctx : Option String)
    (isStudent : Bool) (stored : List String) : Session :=
  { testId := t.id
    questions := qs
    answers := fun _ => none
    timeRemaining := jsOrInt t.time_minutes 60 * 60
    initialTime := jsOrInt t.time_minutes 60 * 60
    finished := false
    results := none
    playlistId := pctx
    isStudent := isStudent
    storedCompleted := stored
    progressWrites := 0
    finishCount := 0 }

/-- handleFinish (TestTake.tsx lines 86-164): guarded by the finished
flag; computes the result from the current questions, answers and
remaining time; then, when the test sits in a playlist context for a
student and the stored record does not already contain the test id,
appends the id and performs one progress write. -/
def handleFinish (s : Session) : Session :=
  if s.finished then s
  else
    let r := computeResults s.questions s.answers s.initialTime s.timeRemaining
    let doWrite := s.playlistId.isSome && s.isStudent
      && !(decide (s.testId ∈ s.storedCompleted))
    { s with
      finished := true
      results := some r
      finishCount := s.finishCount + 1
      storedCompleted :=
        if doWrite then s.storedCompleted ++ [s.testId] else s.storedCompleted
      progressWrites :=
        if doWrite then s.progressWrites + 1 else s.progressWrites }

/-- One firing of the one-second interval (TestTake.tsx lines 166-181).
The interval only exists while timeRemaining > 0 and not finished.
When the previous value is at most 1 the updater calls handleFinish and
returns 0; handleFinish reads the remaining-time ref, which still holds
the pre-decrement value at that moment, because the ref is only synced
after the state update commits. Otherwise the value decrements by 1. -/
def tick (s : Session) : Session :=
  if 0 < s.timeRemaining ∧ s.finished = false then
    if s.timeRemaining ≤ 1 then
      let s' := handleFinish s
      { s' with timeRemaining := 0 }
    else { s with timeRemaining := s.timeRemaining - 1 }
  else s

/-- handleAnswerChange (TestTake.tsx lines 237-242): overwrites the entry
for one question index. -/
def setAnswer (s : Session) (i : Nat) (v : Int) : Session :=
  { s with answers := fun j => if j = i then some v else s.answers j }

/-- n successive timer firings. -/
def tickN : Nat → Session → Session
  | 0, s => s
  | n + 1, s => tickN n (tick s)

/-- Session states reachable through the component lifecycle: a fresh
load, timer ticks, finish invocations (manual or timeout), and answer
changes. -/
inductive Reachable : Session → Prop where
  | start : ∀ (t : TestRow) (qs : List Question) (pctx : Option String)
      (isStudent : Bool) (stored : List String),
      Reachable (loadTest t qs pctx isStudent stored)
  | stepTick : ∀ s, Reachable s → Reachable (tick s)
  | stepFinish : ∀ s, Reachable s → Reachable (handleFinish s)
  | stepAnswer : ∀ s i v, Reachable s → Reachable (setAnswer s i v)

lemma countCorrectAux_eq_length (qs : List Question) (ans : AnswerMap) (b : Nat)
    (h : ∀ j q, qs.get? j = some q → isAnsweredCorrectly q (ans (b + j)) = true) :
    countCorrectAux qs b ans = qs.length := by
  induction qs generalizing b with
  | nil => rfl
  | cons q rest ih =>
      have hq : isAnsweredCorrectly q (ans b) = true := by
        have := h 0 q rfl
        simpa using this
      have hrest : countCorrectAux rest (b + 1) ans = rest.length := by
        apply ih
        intro j r hr
        have := h (j + 1) r (by simpa using hr)
        have harith : b + (j + 1) = b + 1 + j := by omega
        rwa [harith] at this
      simp [countCorrectAux, hq, hrest, Nat.add_comm]

lemma tick_of_finished (s : Session) (h : s.finished = true) : tick s = s := by
  simp [tick, h]

lemma tickN_of_finished (s : Session) (n : Nat) (h : s.finished = true) :
    tickN n s = s := by
  induction n with
  | zero => rfl
  | succ n ih => simp [tickN, tick_of_finished s h, ih]

lemma tickN_add (a b : Nat) (s : Session) :
    tickN (a + b) s = tickN a (tickN b s) := by
  induction b generalizing s with
  | zero => rfl
  | succ b ih =>
      have : a + (b + 1) = (a + b) + 1 := by omega
      rw [this]
      show tickN (a + b) (tick s) = tickN a (tickN b (tick s))
      exact ih (tick s)

/-- Claim C1: for any question list where each question at index i has its
first is_correct variant at position k i and the answer map assigns k i to
index i, the computed result has correct = total and wrong = 0. -/
theorem scoring_all_correct (qs : List Question) (ans : AnswerMap)
    (it tr : Int)
    (h : ∀ i q, qs.get? i = some q →
      ∃ k, q.variants.findIdx? (fun v => v.is_correct) = some k ∧
        ans i = some (Int.ofNat k)) :
    (computeResults qs ans it tr).correct = (computeResults qs ans it tr).total ∧
    (computeResults qs ans it tr).wrong = 0 := by
  have hcount : countCorrect qs ans = qs.length := by
    apply countCorrectAux_eq_length
    intro j q hj
    rcases h j q hj with ⟨k, hfind, hans⟩
    simp only [Nat.zero_add]
    rw [hans]
    simp [isAnsweredCorrectly, correctVariantIndex, hfind]
  constructor
  · simpa [computeResults] using hcount
  · simp [computeResults, hcount]

/-- Witness for C1: a two-question test answered with the first correct
positions 0 and 1 scores correct = total and wrong = 0. -/
theorem scoring_all_correct_check :
    (computeResults
      [⟨"q1", "1", [⟨"v1", "a", true⟩, ⟨"v2", "b", false⟩]⟩,
       ⟨"q2", "2", [⟨"v3", "c", false⟩, ⟨"v4", "d", true⟩]⟩]
      (fun i => if i = 0 then some 0 else if i = 1 then some 1 else none)
      60 50).correct =
    (computeResults
      [⟨"q1", "1", [⟨"v1", "a", true⟩, ⟨"v2", "b", false⟩]⟩,
       ⟨"q2", "2", [⟨"v3", "c", false⟩, ⟨"v4", "d", true⟩]⟩]
      (fun i => if i = 0 then some 0 else if i = 1 then some 1 else none)
      60 50).total ∧
    (computeResults
      [⟨"q1", "1", [⟨"v1", "a", true⟩, ⟨"v2", "b", false⟩]⟩,
       ⟨"q2", "2", [⟨"v3", "c", false⟩, ⟨"v4", "d", true⟩]⟩]
      (fun i => if i = 0 then some 0 else if i = 1 then some 1 else none)
      60 50).wrong = 0 := by
  apply scoring_all_correct
  intro i q hq
  match i, hq with
  | 0, hq =>
      cases hq
      exact ⟨0, rfl, rfl⟩
  | 1, hq =>
      cases hq
      exact ⟨1, rfl, rfl⟩
  | n + 2, hq => simp at hq

/-- Claim C3: once the session is finished, a second invocation of
handleFinish is a no-op: the state, the result object, and the count of
progress writes are all unchanged. -/
theorem finish_idempotent (s : Session) :
    handleFinish (handleFinish s) = handleFinish s ∧
    (handleFinish (handleFinish s)).results = (handleFinish s).results ∧
    (handleFinish (handleFinish s)).progressWrites
      = (handleFinish s).progressWrites := by
  have h : handleFinish (handleFinish s) = handleFinish s := by
    by_cases hf : s.finished <;> simp [handleFinish, hf]
  exact ⟨h, by rw [h], by rw [h]⟩

/-- Claim C9: a null (or 0) time_minutes column makes loadTest set both
the initial and the remaining time to 60 * 60 = 3600 seconds. -/
theorem default_time_limit (t : TestRow) (qs : List Question)
    (pctx : Option String) (isStudent : Bool) (stored : List String)
    (h : t.time_minutes = none ∨ t.time_minutes = some 0) :
    (loadTest t qs pctx isStudent stored).timeRemaining = 3600 ∧
    (loadTest t qs pctx isStudent stored).initialTime = 3600 := by
  rcases h with h | h <;> simp [loadTest, jsOrInt, h]

/-- Witness for C9: loading a test whose time_minutes is null yields a
3600-second countdown. -/
theorem default_time_limit_check :
    (loadTest ⟨"t1", none⟩ [] none true []).timeRemaining = 3600 ∧
    (loadTest ⟨"t1", none⟩ [] none true []).initialTime = 3600 :=
  default_time_limit ⟨"t1", none⟩ [] none true [] (Or.inl rfl)

lemma handleFinish_of_finished (s : Session) (h : s.finished = true) :
    handleFinish s = s := by
  simp [handleFinish, h]

lemma handleFinish_timeRemaining (s : Session) :
    (handleFinish s).timeRemaining = s.timeRemaining := by
  by_cases h : s.finished <;> simp [handleFinish, h]

lemma handleFinish_initialTime (s : Session) :
    (handleFinish s).initialTime = s.initialTime := by
  by_cases h : s.finished <;> simp [handleFinish, h]

lemma handleFinish_results (s : Session) (h : s.finished = false) :
    (handleFinish s).results =
      some (computeResults s.questions s.answers s.initialTime s.timeRemaining) := by
  simp [handleFinish, h]

lemma reachable_inv (s : Session) (h : Reachable s) :
    s.timeRemaining ≤ s.initialTime ∧
    (∀ r, s.results = some r → 0 ≤ r.timeTaken) := by
  induction h with
  | start t qs pctx isStudent stored =>
      refine ⟨le_refl _, ?_⟩
      intro r hr
      simp [loadTest] at hr
  | stepTick s hs ih =>
      rcases ih with ⟨hle, hres⟩
      by_cases hg : 0 < s.timeRemaining ∧ s.finished = false
      · by_cases h1 : s.timeRemaining ≤ 1
        · refine ⟨?_, ?_⟩
          · simp only [tick, if_pos hg, if_pos h1]
            rw [handleFinish_initialTime]
            omega
          · intro r hr
            simp only [tick, if_pos hg, if_pos h1] at hr
            rw [show ({ handleFinish s with timeRemaining := 0 } : Session).results
                  = (handleFinish s).results from rfl,
                handleFinish_results s hg.2] at hr
            cases hr
            simp [computeResults]
            omega
        · refine ⟨?_, ?_⟩
          · simp only [tick, if_pos hg, if_neg h1]
            omega
          · intro r hr
            simp only [tick, if_pos hg, if_neg h1] at hr
            exact hres r hr
      · simp only [tick, if_neg hg]
        exact ⟨hle, hres⟩
  | stepFinish s hs ih =>
      rcases ih with ⟨hle, hres⟩
      by_cases hf : s.finished
      · rw [handleFinish_of_finished s hf]
        exact ⟨hle, hres⟩
      · refine ⟨?_, ?_⟩
        · rw [handleFinish_timeRemaining, handleFinish_initialTime]
          exact hle
        · intro r hr
          rw [handleFinish_results s (by simpa using hf)] at hr
          cases hr
          simp [computeResults]
          omega
  | stepAnswer s i v hs ih =>
      rcases ih with ⟨hle, hres⟩
      exact ⟨hle, fun r hr => hres r hr⟩

/-- Claim C6: at finish the stored timeTaken equals initial allotted
seconds minus remaining seconds at the moment of the call, and on every
reachable session state any stored result has timeTaken at least 0 (the
subtraction never underflows on reachable states). -/
theorem time_taken_nonneg (s : Session) (h : Reachable s) :
    (∀ r, s.results = some r → 0 ≤ r.timeTaken) ∧
    (s.finished = false →
      (handleFinish s).results =
        some (computeResults s.questions s.answers s.initialTime s.timeRemaining)) ∧
    (computeResults s.questions s.answers s.initialTime s.timeRemaining).timeTaken
      = s.initialTime - s.timeRemaining ∧
    0 ≤ s.initialTime - s.timeRemaining := by
  rcases reachable_inv s h with ⟨hle, hres⟩
  refine ⟨hres, ?_, rfl, by omega⟩
  intro hf
  simp [handleFinish, hf]

/-- Witness for C6: finishing a freshly loaded 2-minute test stores a
result and its timeTaken, 0, is at least 0. -/
theorem time_taken_nonneg_check :
    (handleFinish (loadTest ⟨"t1", some 2⟩ [] none false [])).results =
      some ⟨0, 0, 0, 0⟩ ∧
    (0 : Int) ≤ (⟨0, 0, 0, 0⟩ : TestResults).timeTaken := by
  have h := time_taken_nonneg (handleFinish (loadTest ⟨"t1", some 2⟩ [] none false []))
    (Reachable.stepFinish _ (Reachable.start ⟨"t1", some 2⟩ [] none false []))
  refine ⟨by decide, ?_⟩
  exact h.1 ⟨0, 0, 0, 0⟩ (by decide)

/-- The two-question test of the timeout scenario: question 1 has its
correct variant at position 0, question 2 at position 1, and the time
limit is 1 minute. -/
def scenB : Session :=
  loadTest ⟨"tB", some 1⟩
    [⟨"q1", "1", [⟨"v1", "a", true⟩, ⟨"v2", "b", false⟩]⟩,
     ⟨"q2", "2", [⟨"v3", "c", false⟩, ⟨"v4", "d", true⟩]⟩]
    none true []

set_option maxRecDepth 40000 in
/-- Counterexample to claim C5: with 2 questions, a 1-minute limit and no
answers, letting the timer run to expiry (60 firings) stores the result
total 2, correct 0, wrong 2, timeTaken 59 - not timeTaken 60 as claimed.
The auto-finish fires while the remaining-time ref still holds the
pre-decrement value 1, so timeTaken = 60 - 1 = 59. -/
theorem timeout_result_cx :
    (tickN 60 scenB).results = some ⟨2, 0, 2, 59⟩ ∧
    (tickN 60 scenB).results ≠ some ⟨2, 0, 2, 60⟩ := by
  constructor
  · decide
  · decide

set_option maxRecDepth 40000 in
/-- Amended claim C5: with 2 questions, timeLimitMinutes = 1 and no
answers, the timer expiry auto-finishes exactly once (finishCount stays
1 under further firings) and the computed result is total 2, correct 0,
wrong 2, timeTaken 59: one second less than the full 60, because the
finish triggered by the final tick reads the pre-decrement remaining
value 1. -/
theorem timeout_autofinish_amended (n : Nat) :
    (tickN (60 + n) scenB).results = some ⟨2, 0, 2, 59⟩ ∧
    (tickN (60 + n) scenB).finishCount = 1 := by
  have hfix : tickN (60 + n) scenB = tickN 60 scenB := by
    rw [Nat.add_comm, tickN_add]
    exact tickN_of_finished _ n (by decide)
  rw [hfix]
  exact ⟨by decide, by decide⟩

/-- One row of the playlist_tests junction table as fetched in
PlaylistView.loadPlaylist, ordered by order_index ascending. -/
structure PlaylistTestRow where
  test_id : String
  order_index : Nat
deriving DecidableEq

/-- One row of the course_playlists junction table as fetched in
PlaylistView.loadPlaylist; the course branch has no stored order index
and uses the array position instead. -/
structure CoursePlaylistRow where
  course_id : String
deriving DecidableEq

/-- The per-item view state built by PlaylistView.loadPlaylist. -/
structure ItemStatus where
  id : String
  order_index : Nat
  is_available : Bool
  is_completed : Bool
deriving DecidableEq

/-- Status of one test item (PlaylistView lines 93-118): completed only
for a student viewer whose progress contains the id; available starts
true (teachers always see everything) and is restricted only for a
student in sequential mode, where position 0 is open and any later
position requires the predecessor row
playlistTests[order_index - 1] to be completed. An out-of-range
predecessor (impossible when order indexes are the positions 0..n-1) is
modelled as unavailable. The model assumes every referenced test row
resolves, so no item is filtered out as missing. -/
def testStatus (role accessMode : String) (completed : List String)
    (pts : List PlaylistTestRow) (pt : PlaylistTestRow) : ItemStatus :=
  { id := pt.test_id
    order_index := pt.order_index
    is_available :=
      if role = "student" ∧ accessMode = "sequential" then
        if pt.order_index = 0 then true
        else
          match pts.get? (pt.order_index - 1) with
          | some prev => decide (prev.test_id ∈ completed)
          | none => false
      else true
    is_completed :=
      if role = "student" then decide (pt.test_id ∈ completed) else false }

/-- The test branch of loadPlaylist: map every playlist_tests row to its
status. -/
def loadTestStatuses (role accessMode : String) (completed : List String)
    (pts : List PlaylistTestRow) : List ItemStatus :=
  pts.map (testStatus role accessMode completed pts)

/-- Status of one course item (PlaylistView lines 148-173): identical
shape to the test branch but indexed by array position. -/
def courseStatus (role accessMode : String) (completed : List String)
    (cps : List CoursePlaylistRow) (idx : Nat) (cp : CoursePlaylistRow) :
    ItemStatus :=
  { id := cp.course_id
    order_index := idx
    is_available :=
      if role = "student" ∧ accessMode = "sequential" then
        if idx = 0 then true
        else
          match cps.get? (idx - 1) with
          | some prev => decide (prev.course_id ∈ completed)
          | none => false
      else true
    is_completed :=
      if role = "student" then decide (cp.course_id ∈ completed) else false }

/-- The course branch of loadPlaylist: map every course_playlists row,
paired with its position, to its status. -/
def loadCourseStatuses (role accessMode : String) (completed : List String)
    (cps : List CoursePlaylistRow) : List ItemStatus :=
  cps.enum.map (fun p => courseStatus role accessMode completed cps p.1 p.2)

/-- Claim C2: for a student viewing a sequential test playlist whose
rows carry the contiguous order indexes 0..n-1, the item at position j
is completed iff its id is in the completion set, is always available at
position 0, and at a later position is available iff the id of the row
at position j-1 is in the completion set. -/
theorem sequential_gating (pts : List PlaylistTestRow) (completed : List String)
    (hord : pts.map (fun pt => pt.order_index) = List.range pts.length)
    (j : Nat) (pt : PlaylistTestRow) (hj : pts.get? j = some pt) :
    (loadTestStatuses "student" "sequential" completed pts).get? j =
      some
        { id := pt.test_id
          order_index := j
          is_available :=
            if j = 0 then true
            else
              match pts.get? (j - 1) with
              | some prev => decide (prev.test_id ∈ completed)
              | none => false
          is_completed := decide (pt.test_id ∈ completed) } := by
  have hlen : j < pts.length := by
    rcases List.get?_eq_some.mp hj with ⟨hl, _⟩
    exact hl
  have hidx : pt.order_index = j := by
    have h1 : (pts.map (fun pt => pt.order_index)).get? j = some pt.order_index := by
      rw [List.get?_map, hj]
      rfl
    rw [hord, List.get?_range hlen] at h1
    exact (Option.some.inj h1).symm
  unfold loadTestStatuses
  rw [List.get?_map, hj]
  simp only [Option.map_some']
  unfold testStatus
  rw [hidx]
  simp

/-- Witness for C2: the 3-item sequential playlist t0, t1, t2 with
completion set containing only t0 computes: t0 available and completed,
t1 available and not completed, t2 not available and not completed. -/
theorem sequential_gating_check :
    (loadTestStatuses "student" "sequential" ["t0"]
        [⟨"t0", 0⟩, ⟨"t1", 1⟩, ⟨"t2", 2⟩]).get? 0 = some ⟨"t0", 0, true, true⟩ ∧
    (loadTestStatuses "student" "sequential" ["t0"]
        [⟨"t0", 0⟩, ⟨"t1", 1⟩, ⟨"t2", 2⟩]).get? 1 = some ⟨"t1", 1, true, false⟩ ∧
    (loadTestStatuses "student" "sequential" ["t0"]
        [⟨"t0", 0⟩, ⟨"t1", 1⟩, ⟨"t2", 2⟩]).get? 2 = some ⟨"t2", 2, false, false⟩ := by
  refine ⟨?_, ?_, ?_⟩
  · rw [sequential_gating [⟨"t0", 0⟩, ⟨"t1", 1⟩, ⟨"t2", 2⟩] ["t0"] (by decide)
      0 ⟨"t0", 0⟩ rfl]
    decide
  · rw [sequential_gating [⟨"t0", 0⟩, ⟨"t1", 1⟩, ⟨"t2", 2⟩] ["t0"] (by decide)
      1 ⟨"t1", 1⟩ rfl]
    decide
  · rw [sequential_gating [⟨"t0", 0⟩, ⟨"t1", 1⟩, ⟨"t2", 2⟩] ["t0"] (by decide)
      2 ⟨"t2", 2⟩ rfl]
    decide

/-- Claim C8: a viewer whose role is not student sees every playlist
item as available and none as completed, in both the test branch and the
course branch, whatever the access mode and the stored progress. -/
theorem nonstudent_bypass (role accessMode : String) (completed : List String)
    (pts : List PlaylistTestRow) (cps : List CoursePlaylistRow)
    (h : role ≠ "student") :
    (∀ st, st ∈ loadTestStatuses role accessMode completed pts →
        st.is_available = true ∧ st.is_completed = false) ∧
    (∀ st, st ∈ loadCourseStatuses role accessMode completed cps →
        st.is_available = true ∧ st.is_completed = false) := by
  constructor
  · intro st hst
    rcases List.mem_map.mp hst with ⟨pt, _, rfl⟩
    simp [testStatus, h]
  · intro st hst
    rcases List.mem_map.mp hst with ⟨p, _, rfl⟩
    simp [courseStatus, h]

/-- Witness for C8: a teacher viewing a sequential 2-test playlist with
progress on t0 sees the second test available and not completed. -/
theorem nonstudent_bypass_check :
    (testStatus "teacher" "sequential" ["t0"] [⟨"t0", 0⟩, ⟨"t1", 1⟩]
        ⟨"t1", 1⟩).is_available = true ∧
    (testStatus "teacher" "sequential" ["t0"] [⟨"t0", 0⟩, ⟨"t1", 1⟩]
        ⟨"t1", 1⟩).is_completed = false := by
  have h := nonstudent_bypass "teacher" "sequential" ["t0"]
    [⟨"t0", 0⟩, ⟨"t1", 1⟩] [] (by decide)
  exact h.1 _ (by decide)

/-- The shared read-modify-write core used by markTestCompleted
(PlaylistView lines 247-286), the playlist branch of handleFinish
(TestTake lines 125-163) and each loop step of handleCompleteLesson
(LessonView lines 163-194): read the completed ids of the row (absence
reads as the empty list), and only when the item is not yet present
append it; the Bool records whether a write was issued. -/
def recordCompletion (existing : Option (List String)) (itemId : String) :
    List String × Bool :=
  let cur := existing.getD []
  if itemId ∈ cur then (cur, false) else (cur ++ [itemId], true)

/-- The completed-ids list produced by a sequence of recordCompletion
calls against one row, starting from an absent row. -/
def runOps (ops : List String) : List String :=
  ops.foldl (fun cur op => (recordCompletion (some cur) op).1) []

/-- The playlist_student_progress table restricted to completed ids:
one optional list per (playlist id, student id) key, unique per key. -/
def Store : Type := String × String → Option (List String)

/-- Read side of the progress gateway: maybeSingle select by
(playlist_id, student_id). -/
def getProgress (st : Store) (pl s : String) : Option (List String) :=
  st (pl, s)

/-- Write side: update the unique row for the key, or insert it. -/
def setProgress (st : Store) (pl s : String) (l : List String) : Store :=
  fun k => if k = (pl, s) then some l else st k

/-- One full recordCompletion transaction against the store, as
performed by markTestCompleted and handleCompleteLesson: skip the write
entirely when the id is already present. -/
def recordCompletionStore (st : Store) (pl s itemId : String) : Store :=
  let r := recordCompletion (getProgress st pl s) itemId
  if r.2 then setProgress st pl s r.1 else st

/-- handleCompleteLesson (LessonView lines 143-214): iterate over every
playlist containing the course and run the recordCompletion transaction
on each, for the acting student. -/
def completeLesson (st : Store) (student courseId : String)
    (containing : List String) : Store :=
  containing.foldl (fun acc pl => recordCompletionStore acc pl student courseId) st

/-- The externally visible effects of handleFinish (TestTake lines
86-163) in source order: the testCompleted dispatch happens first, then
(in a student playlist context) the progress read and, if the id is
absent, the progress write. -/
inductive FinishAction where
  | notify
  | readProgress
  | write
deriving DecidableEq

/-- Trace of effects of one handleFinish call, by the guards the code
checks: the finished flag, whether a playlist context and a student
profile are present, and whether the row already holds the id. -/
def handleFinishActions (finished inPlaylist isStudent alreadyCompleted : Bool) :
    List FinishAction :=
  if finished then []
  else
    FinishAction.notify ::
      (if inPlaylist && isStudent then
        FinishAction.readProgress ::
          (if alreadyCompleted then [] else [FinishAction.write])
      else [])

lemma mem_recordCompletion (existing : Option (List String)) (itemId : String) :
    itemId ∈ (recordCompletion existing itemId).1 := by
  unfold recordCompletion
  by_cases h : itemId ∈ existing.getD [] <;> simp [h]

lemma getProgress_setProgress_self (st : Store) (pl s : String) (l : List String) :
    getProgress (setProgress st pl s l) pl s = some l := by
  simp [getProgress, setProgress]

lemma getProgress_setProgress_other (st : Store) (pl s pl' s' : String)
    (l : List String) (h : (pl', s') ≠ (pl, s)) :
    getProgress (setProgress st pl s l) pl' s' = getProgress st pl' s' := by
  simp [getProgress, setProgress, h]

lemma mem_recordCompletionStore_self (st : Store) (pl s itemId : String) :
    itemId ∈ (getProgress (recordCompletionStore st pl s itemId) pl s).getD [] := by
  unfold recordCompletionStore
  by_cases h : (recordCompletion (getProgress st pl s) itemId).2
  · rw [if_pos h, getProgress_setProgress_self]
    exact mem_recordCompletion _ _
  · rw [if_neg h]
    revert h
    unfold recordCompletion
    by_cases hm : itemId ∈ (getProgress st pl s).getD [] <;> simp [hm]

lemma recordCompletionStore_frame (st : Store) (pl s itemId pl' s' : String)
    (h : (pl', s') ≠ (pl, s)) :
    getProgress (recordCompletionStore st pl s itemId) pl' s'
      = getProgress st pl' s' := by
  unfold recordCompletionStore
  by_cases hw : (recordCompletion (getProgress st pl s) itemId).2
  · rw [if_pos hw, getProgress_setProgress_other st pl s pl' s' _ h]
  · rw [if_neg hw]

lemma mem_recordCompletionStore_mono (st : Store) (pl s pl2 s2 x y : String)
    (h : x ∈ (getProgress st pl s).getD []) :
    x ∈ (getProgress (recordCompletionStore st pl2 s2 y) pl s).getD [] := by
  by_cases hk : (pl, s) = (pl2, s2)
  · cases hk
    unfold recordCompletionStore recordCompletion
    by_cases hm : y ∈ (getProgress st pl s).getD []
    · simpa [hm] using h
    · simp only [hm]
      simp [getProgress_setProgress_self]
      exact Or.inl h
  · rwa [recordCompletionStore_frame st pl2 s2 y pl s hk]

lemma mem_completeLesson_mono (containing : List String) (st : Store)
    (student courseId pl s x : String)
    (h : x ∈ (getProgress st pl s).getD []) :
    x ∈ (getProgress (completeLesson st student courseId containing) pl s).getD [] := by
  induction containing generalizing st with
  | nil => exact h
  | cons p rest ih =>
      exact ih (recordCompletionStore st p student courseId)
        (mem_recordCompletionStore_mono st pl s p student x courseId h)

lemma nodup_recordCompletion (cur : List String) (h : cur.Nodup) (x : String) :
    ((recordCompletion (some cur) x).1).Nodup := by
  unfold recordCompletion
  by_cases hm : x ∈ cur
  · simpa [hm] using h
  · simp [hm, List.nodup_append, h, List.disjoint_singleton]

lemma runOps_nodup (ops : List String) : (runOps ops).Nodup := by
  suffices hgen : ∀ cur : List String, cur.Nodup →
      (ops.foldl (fun cur op => (recordCompletion (some cur) op).1) cur).Nodup by
    exact hgen [] List.nodup_nil
  induction ops with
  | nil => intro cur h; exact h
  | cons op rest ih =>
      intro cur h
      exact ih _ (nodup_recordCompletion cur h op)

lemma recordCompletion_of_mem (l : List String) (x : String) (h : x ∈ l) :
    recordCompletion (some l) x = (l, false) := by
  simp [recordCompletion, h]

lemma completeLesson_frame (containing : List String) :
    ∀ (st : Store) (student courseId pl s : String),
      pl ∉ containing ∨ s ≠ student →
      getProgress (completeLesson st student courseId containing) pl s
        = getProgress st pl s := by
  induction containing with
  | nil => intro st student courseId pl s h; rfl
  | cons p rest ih =>
      intro st student courseId pl s h
      have hk : (pl, s) ≠ (p, student) := by
        intro he
        injection he with h1 h2
        rcases h with h | h
        · exact h (h1 ▸ List.mem_cons_self p rest)
        · exact h h2
      have h2 : pl ∉ rest ∨ s ≠ student := by
        rcases h with h | h
        · exact Or.inl (fun hr => h (List.mem_cons_of_mem _ hr))
        · exact Or.inr h
      rw [show completeLesson st student courseId (p :: rest)
            = completeLesson (recordCompletionStore st p student courseId)
                student courseId rest from rfl]
      rw [ih _ student courseId pl s h2]
      exact recordCompletionStore_frame st p student courseId pl s hk

lemma mem_completeLesson_self (containing : List String) :
    ∀ (st : Store) (student courseId pl : String), pl ∈ containing →
      courseId ∈
        (getProgress (completeLesson st student courseId containing) pl
          student).getD [] := by
  induction containing with
  | nil => intro st student courseId pl h; cases h
  | cons p rest ih =>
      intro st student courseId pl h
      rcases List.mem_cons.mp h with hp | hp
      · subst hp
        exact mem_completeLesson_mono rest _ student courseId pl student courseId
          (mem_recordCompletionStore_self st pl student courseId)
      · exact ih _ student courseId pl hp

/-- Claim C4: recording the same completion twice leaves the list and the
store unchanged on the second call and issues no second write; the
resulting list holds the item exactly once; and every completed-ids list
reachable through recordCompletion operations is duplicate-free. -/
theorem record_completion_idempotent (ex : Option (List String))
    (itemId : String) (st : Store) (pl s : String)
    (h : (ex.getD []).Nodup) :
    ((recordCompletion (some (recordCompletion ex itemId).1) itemId).1
        = (recordCompletion ex itemId).1) ∧
    ((recordCompletion (some (recordCompletion ex itemId).1) itemId).2 = false) ∧
    ((recordCompletion ex itemId).1.count itemId = 1) ∧
    (recordCompletionStore (recordCompletionStore st pl s itemId) pl s itemId
        = recordCompletionStore st pl s itemId) ∧
    (∀ ops : List String, (runOps ops).Nodup) := by
  have hmem : itemId ∈ (recordCompletion ex itemId).1 := mem_recordCompletion ex itemId
  refine ⟨?_, ?_, ?_, ?_, fun ops => runOps_nodup ops⟩
  · rw [recordCompletion_of_mem _ _ hmem]
  · rw [recordCompletion_of_mem _ _ hmem]
  · by_cases hm : itemId ∈ ex.getD []
    · have he : (recordCompletion ex itemId).1 = ex.getD [] := by
        simp [recordCompletion, hm]
      rw [he]
      have h1 : (ex.getD []).count itemId ≤ 1 :=
        List.nodup_iff_count_le_one.mp h itemId
      have h2 : 0 < (ex.getD []).count itemId := by
        rw [List.count_pos_iff_mem]
        exact hm
      omega
    · have he : (recordCompletion ex itemId).1 = ex.getD [] ++ [itemId] := by
        simp [recordCompletion, hm]
      rw [he, List.count_append, List.count_eq_zero.mpr hm]
      simp
  · have hmem2 : itemId ∈
        (getProgress (recordCompletionStore st pl s itemId) pl s).getD [] :=
      mem_recordCompletionStore_self st pl s itemId
    conv_lhs => rw [recordCompletionStore]
    rw [show (getProgress (recordCompletionStore st pl s itemId) pl s)
          = some ((getProgress (recordCompletionStore st pl s itemId) pl
              s).getD []) from ?_]
    · rw [recordCompletion_of_mem _ _ hmem2]
      simp
    · cases hg : getProgress (recordCompletionStore st pl s itemId) pl s with
      | none =>
          rw [hg] at hmem2
          cases hmem2
      | some l => rfl

/-- Witness for C4: after recording a completion on a row that already
held another item, the item appears exactly once. -/
theorem record_completion_idempotent_check :
    (recordCompletion (some ["a"]) "b").1.count "b" = 1 := by
  have h := record_completion_idempotent (some ["a"]) "b"
    (fun _ => none) "p" "s" (by decide)
  exact h.2.2.1

/-- Claim C10: handleCompleteLesson appends the course id to the progress
record of every playlist containing the course for the acting student,
and leaves every record for another playlist or another student exactly
as it was. -/
theorem complete_lesson_footprint (st : Store) (student courseId : String)
    (containing : List String) :
    (∀ pl, pl ∈ containing →
        courseId ∈
          (getProgress (completeLesson st student courseId containing) pl
            student).getD []) ∧
    (∀ pl s, pl ∉ containing ∨ s ≠ student →
        getProgress (completeLesson st student courseId containing) pl s
          = getProgress st pl s) :=
  ⟨fun pl hpl => mem_completeLesson_self containing st student courseId pl hpl,
   fun pl s hs => completeLesson_frame containing st student courseId pl s hs⟩

/-- Witness for C10: completing a lesson contained in playlists p1 and p2
records it in p2 for the student, and leaves a record of another student
untouched. -/
theorem complete_lesson_footprint_check :
    "c" ∈
      (getProgress (completeLesson (fun _ => none) "s" "c" ["p1", "p2"]) "p2"
        "s").getD [] ∧
    getProgress (completeLesson (fun _ => none) "s" "c" ["p1", "p2"]) "p1" "z"
      = getProgress (fun _ => none) "p1" "z" := by
  have h := complete_lesson_footprint (fun _ => none) "s" "c" ["p1", "p2"]
  exact ⟨h.1 "p2" (by decide), h.2 "p1" "z" (Or.inr (by decide))⟩

/-- Counterexample to claim C7: for an unfinished test in a student
playlist context whose id is not yet recorded, handleFinish emits the
testCompleted notification first (position 0) and the progress write
last (position 2) - the order is notify-then-write, the opposite of the
claimed write-then-notify. -/
theorem notify_then_write_cx :
    handleFinishActions false true true false =
      [FinishAction.notify, FinishAction.readProgress, FinishAction.write] ∧
    (handleFinishActions false true true false).get? 0
      = some FinishAction.notify ∧
    (handleFinishActions false true true false).get? 2
      = some FinishAction.write := by
  refine ⟨rfl, rfl, rfl⟩

/-- Amended claim C7: in the test-finish path the testCompleted
notification is emitted before the progress write of handleFinish, not
after it; nevertheless every availability recomputation triggered by a
completion event reads a completion set that already contains the newly
completed item, because the testCompleted listener itself runs the
recordCompletion transaction before it reloads the playlist, and the
lesson path dispatches lessonCompleted only after handleCompleteLesson
has written every containing playlist. -/
theorem notify_listener_amended (st : Store) (pl student itemId : String) :
    ((handleFinishActions false true true false).get? 0
        = some FinishAction.notify ∧
      (handleFinishActions false true true false).get? 2
        = some FinishAction.write) ∧
    itemId ∈
      (getProgress (recordCompletionStore st pl student itemId) pl
        student).getD [] ∧
    (∀ (store : Store) (stu c : String) (containing : List String) (p : String),
        p ∈ containing →
        c ∈
          (getProgress (completeLesson store stu c containing) p stu).getD []) := by
  refine ⟨⟨rfl, rfl⟩, mem_recordCompletionStore_self st pl student itemId, ?_⟩
  intro store stu c containing p hp
  exact mem_completeLesson_self containing store stu c p hp

/-- Witness for C7 (amended): the listener transaction for test tX on an
empty store leaves tX recorded before the playlist reload reads it. -/
theorem notify_listener_amended_check :
    "tX" ∈
      (getProgress (recordCompletionStore (fun _ => none) "p" "s" "tX") "p"
        "s").getD [] := by
  have h := notify_listener_amended (fun _ => none) "p" "s" "tX"
  exact h.2.1
